import Mathlib

/-!
Verification development for the `pylayout` layout engine (`src/layout.py`).

The Python classes are shallowly embedded as Lean definitions:

* `Layout.Style` mirrors the `Style` NamedTuple (immutable value record).
* `Layout.Node` / `Layout.Children` form a closed-variant tree mirroring the
  `Object` class hierarchy (`Object`, `VLayout`, `HLayout`, `Table`,
  `Rectangle`, `Text`); a node stores its optional explicit `_w`/`_h`
  (Python `None` becomes `Option.none`) and its ordered `(child, offset)`
  list.  Machine integers are `Int`; Python `//` (floor division) is
  `Int.fdiv`.
* Property getters that `assert` in Python (reading an unset dimension)
  are embedded as `Option`-valued functions where `none` is the
  assertion fault.
* Rendering is embedded two ways, both straight from the loops in the
  source: as the list of positions at which each direct child's `render`
  is invoked (`basePlaces`, `hplaces`, `vplaces`) and as the flat list of
  renderer calls (`renderEv`).  `Canvas.render` and `DottedLine.render`
  are embedded separately (`canvasRender`, `dottedRender`).
* Python truthiness on optional ints (`not self._w`, `self._w or right`)
  is embedded by `pytruthy` / `pyOr`.

The `point.py` module is not part of the sources.  Modelled from the
spec: `Point` is an immutable pair with component-wise addition and
subtraction and scalar multiplication/division; the scalar addition used
by `Canvas.render` (`pos + self.style.padding`, the spec's
"own-padding-offset") adds the scalar to both components.  Point
arithmetic is therefore inlined as component-wise `Int` arithmetic.
-/

namespace Layout

/-- The `Anchor` enum of `layout.py` (nine text anchor positions). -/
inductive Anchor where
  | topLeft | topMiddle | topRight
  | middleLeft | middleMiddle | middleRight
  | bottomLeft | bottomMiddle | bottomRight
  deriving DecidableEq, Repr

/-- The `Style` NamedTuple of `layout.py`: an immutable record of visual
attributes, with the source's default field values. -/
structure Style where
  padding : Int := 10
  font : String := "Roboto-Regular.ttf"
  fontSize : Int := 32
  anchor : Anchor := Anchor.topLeft
  strokeColor : String := "black"
  fillColor : String := "white"
  fontColor : String := "black"
  deriving DecidableEq, Repr

/-- The module-level `default_style = Style()` initial value. -/
def initialDefaultStyle : Style := {}

/-- The style captured by `Object.__init__`: `if not style: style =
default_style`.  A `Style` instance is a nonempty tuple, hence always
truthy in Python, and `None` is falsy, so this is `Option.getD`. -/
def pyStyleOrDefault (explicit : Option Style) (d : Style) : Style :=
  explicit.getD d

/-- Events of the process-wide default-style history: `set_style`
replaces the global `default_style`; `mk` constructs a node with an
optional explicit style (`Object.__init__`). -/
inductive StyleOp where
  | set (s : Style)
  | mk (explicit : Option Style)

/-- State of the default-style machine: the current global
`default_style` and the styles captured by the nodes constructed so far,
in construction order. -/
structure StyleWorld where
  defaultStyle : Style
  made : List Style

/-- One step of the default-style machine: `set_style` rebinds the
global; constructing a node appends the style it captures (its explicit
style, or a snapshot of the current default). -/
def styleStep (w : StyleWorld) : StyleOp → StyleWorld
  | .set s => { w with defaultStyle := s }
  | .mk e => { w with made := w.made ++ [pyStyleOrDefault e w.defaultStyle] }

/-- Run a sequence of style operations from an initial world. -/
def runStyleOps (w : StyleWorld) : List StyleOp → StyleWorld
  | [] => w
  | op :: ops => runStyleOps (styleStep w op) ops

/-- Python truthiness of an optional int: `None` and `0` are falsy,
every other int is truthy. -/
def pytruthy : Option Int → Bool
  | none => false
  | some v => v != 0

/-- Python `a or b` for an optional int `a` and int `b` (as in
`self._w or right` in `Text.prepare`): keeps `a` when truthy, else `b`. -/
def pyOr (a : Option Int) (b : Int) : Int :=
  match a with
  | none => b
  | some v => if v != 0 then v else b

mutual
/-- The layout-node tree, a closed-variant embedding of the `Object`
class hierarchy of `layout.py`.  Each variant stores the underlying
`self._w` / `self._h` fields (`Option Int`, `none` for Python `None`)
and the ordered `(child, offset)` list.  `text` additionally stores the
text string (its `align` is the default `Align.LEFT`). -/
inductive Node : Type where
  | object (w h : Option Int) (children : Children)
  | vlayout (w h : Option Int) (children : Children)
  | hlayout (w h : Option Int) (children : Children)
  | table (w h : Option Int) (children : Children)
  | rect (w h : Option Int) (children : Children)
  | text (s : String) (w h : Option Int) (children : Children)

/-- The `self.children` list: ordered `(child, offset.x, offset.y)`
entries. -/
inductive Children : Type where
  | nil
  | cons (child : Node) (ox oy : Int) (rest : Children)
end

/-- Children list as a plain Lean list of `(child, ox, oy)` triples. -/
def Children.toList : Children → List (Node × Int × Int)
  | .nil => []
  | .cons c ox oy rest => (c, ox, oy) :: rest.toList

mutual
/-- The `width` property getter.  `Object` (and `Rectangle`, `Text`,
`TextBox`) return the stored `self._w`, asserting it is not `None`
(`none` is the assertion fault).  `VLayout.width` recomputes
`max(acc, child.width + offset.x)` over the children starting from `0`;
`HLayout.width` (inherited by `Table`) recomputes
`acc + child.width + offset.x` starting from `0`. -/
def Node.width : Node → Option Int
  | .object w _ _ => w
  | .rect w _ _ => w
  | .text _ w _ _ => w
  | .vlayout _ _ cs => Children.vwidthAux cs 0
  | .hlayout _ _ cs => Children.hwidthAux cs 0
  | .table _ _ cs => Children.hwidthAux cs 0

/-- The loop of `VLayout.width`: `self._w = 0; for (obj, offset):
self._w = max(self._w, obj.width + offx)`. -/
def Children.vwidthAux : Children → Int → Option Int
  | .nil, acc => some acc
  | .cons c ox _ rest, acc =>
    match Node.width c with
    | none => none
    | some w => Children.vwidthAux rest (max acc (w + ox))

/-- The loop of `HLayout.width`: `self._w = 0; for (obj, offset):
self._w += obj.width + offx`. -/
def Children.hwidthAux : Children → Int → Option Int
  | .nil, acc => some acc
  | .cons c ox _ rest, acc =>
    match Node.width c with
    | none => none
    | some w => Children.hwidthAux rest (acc + (w + ox))
end

mutual
/-- The `height` property getter, dual to `Node.width`:
`VLayout.height` sums `child.height + offset.y`, `HLayout.height`
(inherited by `Table`) takes the running max, both starting from `0`;
the other variants return the stored `self._h`, asserting it is set. -/
def Node.height : Node → Option Int
  | .object _ h _ => h
  | .rect _ h _ => h
  | .text _ _ h _ => h
  | .vlayout _ _ cs => Children.vheightAux cs 0
  | .hlayout _ _ cs => Children.hheightAux cs 0
  | .table _ _ cs => Children.hheightAux cs 0

/-- The loop of `VLayout.height`: `self._h = 0; for (obj, offset):
self._h += obj.height + offy`. -/
def Children.vheightAux : Children → Int → Option Int
  | .nil, acc => some acc
  | .cons c _ oy rest, acc =>
    match Node.height c with
    | none => none
    | some h => Children.vheightAux rest (acc + (h + oy))

/-- The loop of `HLayout.height`: `self._h = 0; for (obj, offset):
self._h = max(self._h, obj.height + offy)`. -/
def Children.hheightAux : Children → Int → Option Int
  | .nil, acc => some acc
  | .cons c _ oy rest, acc =>
    match Node.height c with
    | none => none
    | some h => Children.hheightAux rest (max acc (h + oy))
end

/-- Per-child dimension/offset summary `(w, h, ox, oy)` of a children
list, defined when every child's `width`/`height` getter succeeds. -/
def Children.dims : Children → Option (List (Int × Int × Int × Int))
  | .nil => some []
  | .cons c ox oy rest => do
    let w ← c.width
    let h ← c.height
    let ds ← rest.dims
    return (w, h, ox, oy) :: ds

/-- Placement projection of `Object.render` (lines 113-118): the
position `P(x + offx, y + offy)` at which each child's `render` is
invoked, in order.  The base loop reads no child dimensions, so it is
total. -/
def Children.basePlaces : Children → Int → Int → List (Int × Int)
  | .nil, _, _ => []
  | .cons _ ox oy rest, x, y => (x + ox, y + oy) :: Children.basePlaces rest x y

/-- Placement projection of the loop of `HLayout.render` (lines
204-210): each child is rendered at `P(x + offx, y + offy)` and the
cursor advances by `obj.width + offx`. -/
def Children.hplaces : Children → Int → Int → Option (List (Int × Int))
  | .nil, _, _ => some []
  | .cons c ox oy rest, x, y => do
    let w ← Node.width c
    let ps ← Children.hplaces rest (x + w + ox) y
    return (x + ox, y + oy) :: ps

/-- Placement projection of the loop of `VLayout.render` (lines
162-169): with `centerx` fixed, each child is rendered at
`P(obj_posx + centerx - obj_centerx, y + offy)` where
`obj_posx = x + offx` and `obj_centerx = obj_posx + obj.width // 2`,
and the cursor advances by `obj.height + offy`. -/
def Children.vplaces : Children → Int → Int → Int → Option (List (Int × Int))
  | .nil, _, _, _ => some []
  | .cons c ox oy rest, x, centerx, y => do
    let w ← Node.width c
    let h ← Node.height c
    let ps ← Children.vplaces rest x centerx (y + h + oy)
    return ((x + ox) + centerx - ((x + ox) + Int.fdiv w 2), y + oy) :: ps

/-- Placement projection of `VLayout.render` itself: computes
`centerx = x + self.width // 2` (the derived width) and runs the loop. -/
def vrenderPlaces (cs : Children) (x y : Int) : Option (List (Int × Int)) := do
  let W ← Children.vwidthAux cs 0
  Children.vplaces cs x (x + Int.fdiv W 2) y

/-- Renderer calls, the observable events of a render pass. -/
inductive Ev : Type where
  | rectangle (x1 y1 x2 y2 : Int)
  | textAt (x y : Int)
  | lineSeg (x1 y1 x2 y2 : Int)
  | setDims (w h : Int)
  deriving DecidableEq, Repr

/-- Whether an event is a `set_dimensions` call. -/
def Ev.isSetDims : Ev → Bool
  | .setDims _ _ => true
  | _ => false

mutual
/-- The renderer calls a node's `render(renderer, pos)` makes, in
order.  `Object.render` renders each child at `pos + offset`;
`Rectangle.render` first draws `rectangle((x, y), (x + _w, y + _h))`
(failing, like Python's `x + None`, if a dimension is unset) then
delegates to the base loop; `Text.render` (default left alignment)
draws `text` at `pos`; `VLayout.render`/`HLayout.render` run their
placement loops; `Table` inherits `HLayout.render`. -/
def Node.renderEv : Node → Int → Int → Option (List Ev)
  | .object _ _ cs, x, y => Children.renderBase cs x y
  | .rect w h cs, x, y => do
    let wv ← w
    let hv ← h
    let evs ← Children.renderBase cs x y
    return Ev.rectangle x y (x + wv) (y + hv) :: evs
  | .text _ _ _ _, x, y => some [Ev.textAt x y]
  | .vlayout _ _ cs, x, y => do
    let W ← Children.vwidthAux cs 0
    Children.renderV cs x (x + Int.fdiv W 2) y
  | .hlayout _ _ cs, x, y => Children.renderH cs x y
  | .table _ _ cs, x, y => Children.renderH cs x y

/-- Event trace of the `Object.render` loop (each child at
`P(x + offx, y + offy)`). -/
def Children.renderBase : Children → Int → Int → Option (List Ev)
  | .nil, _, _ => some []
  | .cons c ox oy rest, x, y => do
    let evs ← Node.renderEv c (x + ox) (y + oy)
    let rs ← Children.renderBase rest x y
    return evs ++ rs

/-- Event trace of the `VLayout.render` loop. -/
def Children.renderV : Children → Int → Int → Int → Option (List Ev)
  | .nil, _, _, _ => some []
  | .cons c ox oy rest, x, centerx, y => do
    let w ← Node.width c
    let evs ← Node.renderEv c ((x + ox) + centerx - ((x + ox) + Int.fdiv w 2)) (y + oy)
    let h ← Node.height c
    let rs ← Children.renderV rest x centerx (y + h + oy)
    return evs ++ rs

/-- Event trace of the `HLayout.render` loop. -/
def Children.renderH : Children → Int → Int → Option (List Ev)
  | .nil, _, _ => some []
  | .cons c ox oy rest, x, y => do
    let evs ← Node.renderEv c (x + ox) (y + oy)
    let w ← Node.width c
    let rs ← Children.renderH rest (x + w + ox) y
    return evs ++ rs
end

/-- The `height` setter `obj.height = val`: every modelled variant's
setter assigns the stored `self._h`. -/
def Node.setH (v : Option Int) : Node → Node
  | .object w _ cs => .object w v cs
  | .vlayout w _ cs => .vlayout w v cs
  | .hlayout w _ cs => .hlayout w v cs
  | .table w _ cs => .table w v cs
  | .rect w _ cs => .rect w v cs
  | .text s w _ cs => .text s w v cs

/-- The first loop of `Table.prepare`: `self._h = 0; for (obj, _):
self._h = max(self._h, obj.height)` (reading each cell's `height`
getter, failing on an unset cell). -/
def Children.maxHeight : Children → Int → Option Int
  | .nil, acc => some acc
  | .cons c _ _ rest, acc => do
    let h ← Node.height c
    Children.maxHeight rest (max acc h)

/-- The second loop of `Table.prepare`: `for (obj, _): obj.height =
self._h` — force-sets every cell's stored height. -/
def Children.setAllHeights (v : Int) : Children → Children
  | .nil => .nil
  | .cons c ox oy rest => .cons (Node.setH (some v) c) ox oy (Children.setAllHeights v rest)

mutual
/-- The `prepare(renderer)` pass, returning the prepared node and the
number of `renderer.text_bbox` calls made.  `r` is the renderer's
`text_bbox` measurement, returning `(right, bottom)` for a string (the
left/top components are discarded by `Text.prepare`).  `Object.prepare`
(also `Rectangle`, `VLayout`, `HLayout`) prepares each child in order.
`Text.prepare` additionally measures when `not self._w or not self._h`
(Python truthiness) and assigns `self.width = self._w or right`,
`self.height = self._h or bottom`.  `Table.prepare` then computes the
running max of the cells' heights and force-sets every cell's height to
it. -/
def Node.prepareC (r : String → Int × Int) : Node → Option (Node × Nat)
  | .object w h cs => do
    let (cs', n) ← Children.prepareC r cs
    return (.object w h cs', n)
  | .rect w h cs => do
    let (cs', n) ← Children.prepareC r cs
    return (.rect w h cs', n)
  | .vlayout w h cs => do
    let (cs', n) ← Children.prepareC r cs
    return (.vlayout w h cs', n)
  | .hlayout w h cs => do
    let (cs', n) ← Children.prepareC r cs
    return (.hlayout w h cs', n)
  | .table w _ cs => do
    let (cs', n) ← Children.prepareC r cs
    let m ← Children.maxHeight cs' 0
    return (.table w (some m) (Children.setAllHeights m cs'), n)
  | .text s w h cs => do
    let (cs', n) ← Children.prepareC r cs
    if pytruthy w && pytruthy h then
      return (.text s w h cs', n)
    else
      let (right, bottom) := r s
      return (.text s (some (pyOr w right)) (some (pyOr h bottom)) cs', n + 1)

/-- Child loop of `Object.prepare`: prepare each child in order,
summing `text_bbox` call counts. -/
def Children.prepareC (r : String → Int × Int) : Children → Option (Children × Nat)
  | .nil => some (.nil, 0)
  | .cons c ox oy rest => do
    let (c', n) ← Node.prepareC r c
    let (rest', m) ← Children.prepareC r rest
    return (.cons c' ox oy rest', n + m)
end

/-- The loop of `Canvas.render` (lines 394-402).  Arguments: the
remaining children, the padded origin `(px, py)` (the Python
`pos = pos + self.style.padding`, component-wise per the spec's
own-padding-offset), and the accumulated `self.width`/`self.height`.
Each child is prepared, rendered at `pos + offset`, and the accumulators
become `max(acc, obj.width + x)` / `max(acc, obj.height + y)` with
`x, y = offset + pos`. -/
def canvasLoop (r : String → Int × Int) : Children → Int → Int → Int → Int →
    Option (Int × Int × List Ev)
  | .nil, _, _, cw, ch => some (cw, ch, [])
  | .cons c ox oy rest, px, py, cw, ch => do
    let (c', _) ← Node.prepareC r c
    let evs ← Node.renderEv c' (px + ox) (py + oy)
    let w ← Node.width c'
    let h ← Node.height c'
    let (cw', ch', evs') ←
      canvasLoop r rest px py (max cw (w + (ox + px))) (max ch (h + (oy + py)))
    return (cw', ch', evs ++ evs')

/-- The whole of `Canvas.render` (lines 389-408): initialize
`self.width = self.height = padding`, offset the position by the padding
on both axes, run the child loop, add the padding once more to both
accumulated dimensions, and finally call
`renderer.set_dimensions((self.width, self.height))`.  Returns the
canvas's final width/height and the full renderer-call trace. -/
def canvasRender (r : String → Int × Int) (pad : Int) (cs : Children) (x y : Int) :
    Option (Int × Int × List Ev) := do
  let (cw, ch, evs) ← canvasLoop r cs (x + pad) (y + pad) pad pad
  return (cw + pad, ch + pad, evs ++ [Ev.setDims (cw + pad) (ch + pad)])

/-- Number of iterations of Python's `range(0, len, dash)` for
`dash > 0`: `ceil(len / dash)`. -/
def dashCount (len dash : Nat) : Nat := (len + dash - 1) / dash

/-- The dash loop of `DottedLine.render` for the horizontal unit
direction `u = (1, 0)`: starting at the cursor `(x, y)`, each iteration
draws `line(xy1, xy1 + u * (dash_len // 2))` and advances the cursor by
`u * dash_len`. -/
def dashLoop (dash : Nat) : Nat → Int → Int → List Ev
  | 0, _, _ => []
  | n + 1, x, y =>
    Ev.lineSeg x y (x + (dash / 2 : Nat)) y :: dashLoop dash n (x + dash) y

/-- The whole of `DottedLine.render` (lines 312-326), embedded for a
horizontal segment `start = (sx, sy)`, `end = (ex, sy)` with `sx ≤ ex`
(so that the float arithmetic of the source is exact: `length` is the
integer `ex - sx` and the unit direction is `(1, 0)`), rendered at
position `(px, py)`: the loop runs over `range(0, int(length),
dash_len)`. -/
def dottedRender (sx sy ex : Int) (dash : Nat) (px py : Int) : List Ev :=
  dashLoop dash (dashCount (ex - sx).toNat dash) (sx + px) (sy + py)

/-- Spec-side description of `VLayout.render` placements, written from
the claim's words: a running y-cursor starts at the given `y` and
advances by `child.height + offset.y` after each child; each child is
placed at the unique x-position whose center `x-position +
child.width // 2` equals the layout's center `x + layout.width // 2`,
and vertically at the cursor offset by `offset.y`.  Takes the per-child
`(w, h, ox, oy)` summaries. -/
def vSpecPlaces (x W : Int) : List (Int × Int × Int × Int) → Int → List (Int × Int)
  | [], _ => []
  | (w, h, _, oy) :: ds, cur =>
    (x + Int.fdiv W 2 - Int.fdiv w 2, cur + oy) ::
      vSpecPlaces x W ds (cur + h + oy)

/-- Spec-side description of `HLayout.render` placements, from the
claim's words: children are placed sequentially at
`(cursor + offset.x, y + offset.y)`, the cursor starting at the given
`x` and advancing by `child.width + offset.x`. -/
def hSpecPlaces (y : Int) : List (Int × Int × Int × Int) → Int → List (Int × Int)
  | [], _ => []
  | (w, _, ox, oy) :: ds, cur =>
    (cur + ox, y + oy) :: hSpecPlaces y ds (cur + w + ox)

/-- A row of table cells: plain `Object` cells with the given explicit
`(width, height)` pairs, added at the default offset `P(0, 0)`. -/
def mkCells : List (Int × Int) → Children
  | [] => .nil
  | (w, h) :: rest => .cons (.object (some w) (some h) .nil) 0 0 (mkCells rest)

lemma le_foldl_max (xs : List Int) (acc : Int) : acc ≤ xs.foldl max acc := by
  induction xs generalizing acc with
  | nil => exact le_refl _
  | cons a xs ih => exact le_trans (le_max_left acc a) (ih (max acc a))

lemma mem_le_foldl_max {xs : List Int} {a : Int} (h : a ∈ xs) (acc : Int) :
    a ≤ xs.foldl max acc := by
  induction xs generalizing acc with
  | nil => cases h
  | cons b xs ih =>
    rcases List.mem_cons.mp h with rfl | hmem
    · exact le_trans (le_max_right acc a) (le_foldl_max xs (max acc a))
    · exact ih hmem (max acc b)

lemma foldl_max_eq_or_mem (xs : List Int) (acc : Int) :
    xs.foldl max acc = acc ∨ xs.foldl max acc ∈ xs := by
  induction xs generalizing acc with
  | nil => exact Or.inl rfl
  | cons b xs ih =>
    rcases ih (max acc b) with heq | hmem
    · rcases max_cases acc b with ⟨hm, _⟩ | ⟨hm, _⟩
      · exact Or.inl (by rw [List.foldl_cons, heq, hm])
      · exact Or.inr (by rw [List.foldl_cons, heq, hm]; exact List.mem_cons_self _ _)
    · exact Or.inr (List.mem_cons_of_mem _ hmem)

lemma dims_cons_eq {c : Node} {rest : Children} {ox oy : Int}
    {ds : List (Int × Int × Int × Int)}
    (h : (Children.cons c ox oy rest).dims = some ds) :
    ∃ w h' ds', c.width = some w ∧ c.height = some h' ∧ rest.dims = some ds' ∧
      ds = (w, h', ox, oy) :: ds' := by
  cases hw : c.width with
  | none => simp [Children.dims, hw] at h
  | some w =>
    cases hh : c.height with
    | none => simp [Children.dims, hw, hh] at h
    | some h' =>
      cases hds : rest.dims with
      | none => simp [Children.dims, hw, hh, hds] at h
      | some ds' =>
        refine ⟨w, h', ds', rfl, rfl, rfl, ?_⟩
        simpa [Children.dims, hw, hh, hds] using h.symm

lemma vwidthAux_eq : ∀ (cs : Children) (ds : List (Int × Int × Int × Int)),
    cs.dims = some ds → ∀ acc : Int,
    Children.vwidthAux cs acc = some ((ds.map fun d => d.1 + d.2.2.1).foldl max acc)
  | .nil, ds, h, acc => by
    simp only [Children.dims] at h; cases h; rfl
  | .cons c ox oy rest, ds, h, acc => by
    obtain ⟨w, h', ds', hw, hh, hds, rfl⟩ := dims_cons_eq h
    simp only [Children.vwidthAux, hw, List.map_cons, List.foldl_cons]
    exact vwidthAux_eq rest ds' hds (max acc (w + ox))

lemma hwidthAux_eq : ∀ (cs : Children) (ds : List (Int × Int × Int × Int)),
    cs.dims = some ds → ∀ acc : Int,
    Children.hwidthAux cs acc = some (acc + (ds.map fun d => d.1 + d.2.2.1).sum)
  | .nil, ds, h, acc => by
    simp only [Children.dims] at h; cases h; simp [Children.hwidthAux]
  | .cons c ox oy rest, ds, h, acc => by
    obtain ⟨w, h', ds', hw, hh, hds, rfl⟩ := dims_cons_eq h
    simp only [Children.hwidthAux, hw, List.map_cons, List.sum_cons]
    rw [hwidthAux_eq rest ds' hds (acc + (w + ox))]
    exact congrArg some (by ring)

lemma vheightAux_eq : ∀ (cs : Children) (ds : List (Int × Int × Int × Int)),
    cs.dims = some ds → ∀ acc : Int,
    Children.vheightAux cs acc = some (acc + (ds.map fun d => d.2.1 + d.2.2.2).sum)
  | .nil, ds, h, acc => by
    simp only [Children.dims] at h; cases h; simp [Children.vheightAux]
  | .cons c ox oy rest, ds, h, acc => by
    obtain ⟨w, h', ds', hw, hh, hds, rfl⟩ := dims_cons_eq h
    simp only [Children.vheightAux, hh, List.map_cons, List.sum_cons]
    rw [vheightAux_eq rest ds' hds (acc + (h' + oy))]
    exact congrArg some (by ring)

lemma hheightAux_eq : ∀ (cs : Children) (ds : List (Int × Int × Int × Int)),
    cs.dims = some ds → ∀ acc : Int,
    Children.hheightAux cs acc = some ((ds.map fun d => d.2.1 + d.2.2.2).foldl max acc)
  | .nil, ds, h, acc => by
    simp only [Children.dims] at h; cases h; rfl
  | .cons c ox oy rest, ds, h, acc => by
    obtain ⟨w, h', ds', hw, hh, hds, rfl⟩ := dims_cons_eq h
    simp only [Children.hheightAux, hh, List.map_cons, List.foldl_cons]
    exact hheightAux_eq rest ds' hds (max acc (h' + oy))

mutual
lemma Node.renderEv_noSetDims : ∀ (o : Node) (x y : Int) (evs : List Ev),
    Node.renderEv o x y = some evs → evs.countP Ev.isSetDims = 0
  | .object _ _ cs, x, y, evs, h =>
    Children.renderBase_noSetDims cs x y evs (by simpa [Node.renderEv] using h)
  | .rect w hgt cs, x, y, evs, h => by
    cases hw : w with
    | none => simp [Node.renderEv, hw] at h
    | some wv =>
      cases hh : hgt with
      | none => simp [Node.renderEv, hw, hh] at h
      | some hv =>
        cases hb : Children.renderBase cs x y with
        | none => simp [Node.renderEv, hw, hh, hb] at h
        | some evs0 =>
          have he : Ev.rectangle x y (x + wv) (y + hv) :: evs0 = evs := by
            simpa [Node.renderEv, hw, hh, hb] using h
          rw [← he]
          simp only [List.countP_cons, Ev.isSetDims, Bool.cond_decide]
          simpa using Children.renderBase_noSetDims cs x y evs0 hb
  | .text _ _ _ _, x, y, evs, h => by
    have he : [Ev.textAt x y] = evs := by simpa [Node.renderEv] using h
    rw [← he]; rfl
  | .vlayout _ _ cs, x, y, evs, h => by
    cases hW : Children.vwidthAux cs 0 with
    | none => simp [Node.renderEv, hW] at h
    | some W =>
      refine Children.renderV_noSetDims cs x (x + Int.fdiv W 2) y evs ?_
      simpa [Node.renderEv, hW] using h
  | .hlayout _ _ cs, x, y, evs, h =>
    Children.renderH_noSetDims cs x y evs (by simpa [Node.renderEv] using h)
  | .table _ _ cs, x, y, evs, h =>
    Children.renderH_noSetDims cs x y evs (by simpa [Node.renderEv] using h)

lemma Children.renderBase_noSetDims : ∀ (cs : Children) (x y : Int) (evs : List Ev),
    Children.renderBase cs x y = some evs → evs.countP Ev.isSetDims = 0
  | .nil, x, y, evs, h => by
    have he : ([] : List Ev) = evs := by simpa [Children.renderBase] using h
    rw [← he]; rfl
  | .cons c ox oy rest, x, y, evs, h => by
    cases hc : Node.renderEv c (x + ox) (y + oy) with
    | none => simp [Children.renderBase, hc] at h
    | some evs1 =>
      cases hr : Children.renderBase rest x y with
      | none => simp [Children.renderBase, hc, hr] at h
      | some evs2 =>
        have he : evs1 ++ evs2 = evs := by simpa [Children.renderBase, hc, hr] using h
        rw [← he, List.countP_append,
          Node.renderEv_noSetDims c (x + ox) (y + oy) evs1 hc,
          Children.renderBase_noSetDims rest x y evs2 hr]

lemma Children.renderV_noSetDims : ∀ (cs : Children) (x cx y : Int) (evs : List Ev),
    Children.renderV cs x cx y = some evs → evs.countP Ev.isSetDims = 0
  | .nil, x, cx, y, evs, h => by
    have he : ([] : List Ev) = evs := by simpa [Children.renderV] using h
    rw [← he]; rfl
  | .cons c ox oy rest, x, cx, y, evs, h => by
    cases hw : Node.width c with
    | none => simp [Children.renderV, hw] at h
    | some w =>
      cases hc : Node.renderEv c (cx - Int.fdiv w 2) (y + oy) with
      | none => simp [Children.renderV, hw, hc] at h
      | some evs1 =>
        cases hh : Node.height c with
        | none => simp [Children.renderV, hw, hc, hh] at h
        | some hv =>
          cases hr : Children.renderV rest x cx (y + hv + oy) with
          | none => simp [Children.renderV, hw, hc, hh, hr] at h
          | some evs2 =>
            have he : evs1 ++ evs2 = evs := by
              simpa [Children.renderV, hw, hc, hh, hr] using h
            rw [← he, List.countP_append,
              Node.renderEv_noSetDims c _ _ evs1 hc,
              Children.renderV_noSetDims rest x cx (y + hv + oy) evs2 hr]

lemma Children.renderH_noSetDims : ∀ (cs : Children) (x y : Int) (evs : List Ev),
    Children.renderH cs x y = some evs → evs.countP Ev.isSetDims = 0
  | .nil, x, y, evs, h => by
    have he : ([] : List Ev) = evs := by simpa [Children.renderH] using h
    rw [← he]; rfl
  | .cons c ox oy rest, x, y, evs, h => by
    cases hc : Node.renderEv c (x + ox) (y + oy) with
    | none => simp [Children.renderH, hc] at h
    | some evs1 =>
      cases hw : Node.width c with
      | none => simp [Children.renderH, hc, hw] at h
      | some w =>
        cases hr : Children.renderH rest (x + w + ox) y with
        | none => simp [Children.renderH, hc, hw, hr] at h
        | some evs2 =>
          have he : evs1 ++ evs2 = evs := by
            simpa [Children.renderH, hc, hw, hr] using h
          rw [← he, List.countP_append,
            Node.renderEv_noSetDims c (x + ox) (y + oy) evs1 hc,
            Children.renderH_noSetDims rest (x + w + ox) y evs2 hr]
end

lemma runStyleOps_append (w : StyleWorld) (a b : List StyleOp) :
    runStyleOps w (a ++ b) = runStyleOps (runStyleOps w a) b := by
  induction a generalizing w with
  | nil => rfl
  | cons op ops ih => simpa [runStyleOps] using ih (styleStep w op)

lemma runStyleOps_made_extends (w : StyleWorld) (ops : List StyleOp) :
    ∃ extra, (runStyleOps w ops).made = w.made ++ extra := by
  induction ops generalizing w with
  | nil => exact ⟨[], by simp [runStyleOps]⟩
  | cons op ops ih =>
    obtain ⟨extra, hextra⟩ := ih (styleStep w op)
    cases op with
    | set s => exact ⟨extra, by simpa [runStyleOps, styleStep] using hextra⟩
    | mk e =>
      refine ⟨pyStyleOrDefault e w.defaultStyle :: extra, ?_⟩
      simpa [runStyleOps, styleStep] using hextra

lemma pyOr_idem (a : Option Int) (b : Int) : pyOr (some (pyOr a b)) b = pyOr a b := by
  cases a with
  | none => simp [pyOr]
  | some v =>
    by_cases hv : v = 0 <;> simp [pyOr, hv]

/-- C8: reading `width` or `height` on a base (non-derived) node
(`Object`, `Rectangle`, `Text`) whose underlying dimension was never
set faults (the getter's `assert self._w is not None`, embedded as
`none`) instead of returning a default such as `some 0`; once the
dimension is set the getter returns exactly the stored value. -/
theorem C8_unset_dim_faults :
    (∀ h cs, Node.width (.object none h cs) = none ∧
      Node.width (.object none h cs) ≠ some 0) ∧
    (∀ v h cs, Node.width (.object (some v) h cs) = some v) ∧
    (∀ w cs, Node.height (.object w none cs) = none ∧
      Node.height (.object w none cs) ≠ some 0) ∧
    (∀ w v cs, Node.height (.object w (some v) cs) = some v) ∧
    (∀ h cs, Node.width (.rect none h cs) = none) ∧
    (∀ v h cs, Node.width (.rect (some v) h cs) = some v) ∧
    (∀ w cs, Node.height (.rect w none cs) = none) ∧
    (∀ w v cs, Node.height (.rect w (some v) cs) = some v) ∧
    (∀ s h cs, Node.width (.text s none h cs) = none) ∧
    (∀ s v h cs, Node.width (.text s (some v) h cs) = some v) ∧
    (∀ s w cs, Node.height (.text s w none cs) = none) ∧
    (∀ s w v cs, Node.height (.text s w (some v) cs) = some v) := by
  refine ⟨fun _ _ => ⟨rfl, by simp [Node.width]⟩, fun _ _ _ => rfl,
    fun _ _ => ⟨rfl, by simp [Node.height]⟩, fun _ _ _ => rfl,
    fun _ _ => rfl, fun _ _ _ => rfl, fun _ _ => rfl, fun _ _ _ => rfl,
    fun _ _ _ => rfl, fun _ _ _ _ => rfl, fun _ _ _ => rfl, fun _ _ _ _ => rfl⟩

/-- C9: a node constructed without an explicit style captures the
process-wide default style current at construction time as a value
snapshot.  Over any operation history: (1) later operations (including
`set_style`) only extend the list of captured styles, never change an
already-captured one; (2) a node constructed without an explicit style
captures exactly the current default; (3) after `set_style s`, a newly
constructed node captures `s`, and (4) `set_style` is what rebinds the
default while construction never does; (5) an explicit style is
captured as given. -/
theorem C9_default_style_snapshot :
    (∀ init ops more, ∃ extra,
      (runStyleOps init (ops ++ more)).made = (runStyleOps init ops).made ++ extra) ∧
    (∀ init ops, (runStyleOps init (ops ++ [.mk none])).made
      = (runStyleOps init ops).made ++ [(runStyleOps init ops).defaultStyle]) ∧
    (∀ init ops s, (runStyleOps init (ops ++ [.set s, .mk none])).made
      = (runStyleOps init ops).made ++ [s]) ∧
    (∀ init ops s, (runStyleOps init (ops ++ [.set s])).defaultStyle = s) ∧
    (∀ init ops e, (runStyleOps init (ops ++ [.mk e])).defaultStyle
      = (runStyleOps init ops).defaultStyle) ∧
    (∀ init ops s₀, (runStyleOps init (ops ++ [.mk (some s₀)])).made
      = (runStyleOps init ops).made ++ [s₀]) := by
  refine ⟨?_, ?_, ?_, ?_, ?_, ?_⟩
  · intro init ops more
    rw [runStyleOps_append]
    exact runStyleOps_made_extends _ more
  · intro init ops
    rw [runStyleOps_append]
    simp [runStyleOps, styleStep, pyStyleOrDefault]
  · intro init ops s
    rw [runStyleOps_append]
    simp [runStyleOps, styleStep, pyStyleOrDefault]
  · intro init ops s
    rw [runStyleOps_append]
    simp [runStyleOps, styleStep]
  · intro init ops e
    rw [runStyleOps_append]
    simp [runStyleOps, styleStep]
  · intro init ops s₀
    rw [runStyleOps_append]
    simp [runStyleOps, styleStep, pyStyleOrDefault]

/-- C10: a `Text` constructed with an explicit width or height equal to
`0` behaves, under `prepare`, exactly like one where that dimension was
never given (Python truthiness makes `0` and `None` indistinguishable
in `if not self._w or not self._h` and `self._w or right`): `prepare`
still measures and the zero dimension ends up as the measured extent
(`right` for width, `bottom` for height). -/
theorem C10_zero_dim_as_unset :
    (∀ r s h cs, Node.prepareC r (.text s (some 0) h cs)
      = Node.prepareC r (.text s none h cs)) ∧
    (∀ r s w cs, Node.prepareC r (.text s w (some 0) cs)
      = Node.prepareC r (.text s w none cs)) ∧
    (∀ r s h, Node.prepareC r (.text s (some 0) h .nil)
      = some (.text s (some (r s).1) (some (pyOr h (r s).2)) .nil, 1)) ∧
    (∀ r s w, Node.prepareC r (.text s w (some 0) .nil)
      = some (.text s (some (pyOr w (r s).1)) (some (r s).2) .nil, 1)) := by
  refine ⟨?_, ?_, ?_, ?_⟩
  · intro r s h cs
    cases hcs : Children.prepareC r cs with
    | none => simp [Node.prepareC, hcs]
    | some p => simp [Node.prepareC, hcs, pytruthy, pyOr]
  · intro r s w cs
    cases hcs : Children.prepareC r cs with
    | none => simp [Node.prepareC, hcs]
    | some p =>
      cases hw : pytruthy w <;>
        simp [Node.prepareC, hcs, hw, pytruthy, pyOr]
  · intro r s h
    simp [Node.prepareC, Children.prepareC, pytruthy, pyOr]
  · intro r s w
    cases hw : pytruthy w <;>
      simp [Node.prepareC, Children.prepareC, hw, pytruthy, pyOr]

/-- C4 counterexample: the dash loop runs over Python's
`range(0, int(length), dash_len)`, which has `ceil(int(length) /
dash_len)` iterations, not `floor(length / dash_len)`.  A horizontal
`DottedLine` from `(0, 0)` to `(15, 0)` with `dash_len = 10` (exact
float length `15.0`) emits 2 dashes, while the claim's
`floor(length / dash_len)` predicts `15 / 10 = 1`. -/
theorem C4_dash_count_cex :
    (dottedRender 0 0 15 10 0 0).length = 2 ∧ (15 : Nat) / 10 = 1 ∧
      (2 : Nat) ≠ 1 := by
  refine ⟨rfl, rfl, by decide⟩

/-- C4 amended: for a horizontal `DottedLine` from `(sx, sy)` to
`(ex, sy)` with `sx ≤ ex` and `dash_len > 0`, rendered at `(px, py)`,
`render` emits exactly `ceil((ex - sx) / dash_len)` dashes (the size of
`range(0, int(length), dash_len)`); the k-th dash is a segment of
length `dash_len // 2` starting at the cursor `start + pos +
k·dash_len·(1,0)`, so consecutive dashes are spaced `dash_len` apart;
when `dash_len` divides the length (as in the spec's 100/10 example)
the count coincides with `floor(length / dash_len)`. -/
theorem C4_dotted_dashes (sx sy ex px py : Int) (dash : Nat)
    (hd : 0 < dash) (hle : sx ≤ ex) :
    dottedRender sx sy ex dash px py
      = (List.range (dashCount (ex - sx).toNat dash)).map
          (fun k : Nat => Ev.lineSeg (sx + px + ((k * dash : Nat) : Int)) (sy + py)
            (sx + px + ((k * dash : Nat) : Int) + ((dash / 2 : Nat) : Int)) (sy + py)) ∧
    (dottedRender sx sy ex dash px py).length = dashCount (ex - sx).toNat dash ∧
    (∀ len : Nat, dash ∣ len → dashCount len dash = len / dash) := by
  have key : ∀ (n : Nat) (x y : Int), dashLoop dash n x y
      = (List.range n).map (fun k : Nat => Ev.lineSeg (x + ((k * dash : Nat) : Int)) y
          (x + ((k * dash : Nat) : Int) + ((dash / 2 : Nat) : Int)) y) := by
    intro n
    induction n with
    | zero => intro x y; rfl
    | succ m ih =>
      intro x y
      rw [List.range_succ_eq_map, List.map_cons, List.map_map, dashLoop, ih]
      refine congrArg₂ _ (by simp) ?_
      refine List.map_congr_left fun k _ => ?_
      simp only [Function.comp_apply, Nat.succ_eq_add_one]
      congr 1 <;> push_cast <;> ring
  refine ⟨?_, ?_, ?_⟩
  · rw [dottedRender, key]
  · rw [dottedRender, key]
    simp
  · intro len hdvd
    rcases hdvd with ⟨c, rfl⟩
    have h1 : dash * c + dash - 1 = dash - 1 + dash * c := by omega
    rw [dashCount, Nat.mul_div_cancel_left c hd, h1,
      Nat.add_mul_div_left _ _ hd, Nat.div_eq_of_lt (by omega), Nat.zero_add]

/-- C4 witness: the spec's own example, a horizontal dotted line from
`(0, 0)` to `(100, 0)` with `dash_len = 10` rendered at the origin:
10 dashes, each of length 5 starting at `10·k`, spaced 10 apart. -/
theorem C4_dotted_dashes_witness :
    dottedRender 0 0 100 10 0 0
      = [Ev.lineSeg 0 0 5 0, Ev.lineSeg 10 0 15 0, Ev.lineSeg 20 0 25 0,
         Ev.lineSeg 30 0 35 0, Ev.lineSeg 40 0 45 0, Ev.lineSeg 50 0 55 0,
         Ev.lineSeg 60 0 65 0, Ev.lineSeg 70 0 75 0, Ev.lineSeg 80 0 85 0,
         Ev.lineSeg 90 0 95 0] ∧
    (dottedRender 0 0 100 10 0 0).length = 10 := by
  have h := C4_dotted_dashes 0 0 100 0 0 10 (by decide) (by decide)
  exact ⟨h.1.trans (by decide), h.2.1.trans (by decide)⟩

/-- C1 counterexample: `VLayout.width` starts its running max at `0`
(`self._w = 0`), so it clamps at zero rather than returning
`max_i(child.width + offset.x)`.  A `VLayout` with one child of width 5
at offset `(-10, 0)` reports width `0`, while the claim's formula gives
`5 + (-10) = -5`. -/
theorem C1_width_clamp_cex :
    Node.width (.vlayout none none
      (.cons (.object (some 5) (some 5) .nil) (-10) 0 .nil)) = some 0 ∧
    (5 : Int) + (-10) = -5 ∧ (0 : Int) ≠ -5 := by
  exact ⟨rfl, by decide, by decide⟩

/-- C1 amended: for a `VLayout` whose children's dimensions all read
successfully, `width` reads as the max of `0` and all
`child.width + offset.x` (the fold starts at `0`) and `height` reads as
the plain sum of `child.height + offset.y`; for an `HLayout` the axes
are swapped (`width` the sum of `child.width + offset.x`, `height` the
zero-clamped max of `child.height + offset.y`).  The empty child list
yields width = height = 0 on both.  The values are recomputed on every
read from the current children, so a parent `VLayout` holding a single
`Object` child whose stored width is currently `w'` reports exactly
`max 0 (w' + ox)` — mutating the child's explicit width changes the
parent's reported width on the next read. -/
theorem C1_derived_dims :
    (∀ (wv hv : Option Int) (cs : Children) (ds : List (Int × Int × Int × Int)),
      cs.dims = some ds →
      (∃ W, Node.width (.vlayout wv hv cs) = some W ∧ 0 ≤ W ∧
        (∀ a ∈ ds.map (fun d => d.1 + d.2.2.1), a ≤ W) ∧
        (W = 0 ∨ W ∈ ds.map (fun d => d.1 + d.2.2.1))) ∧
      Node.height (.vlayout wv hv cs) = some (ds.map (fun d => d.2.1 + d.2.2.2)).sum ∧
      Node.width (.hlayout wv hv cs) = some (ds.map (fun d => d.1 + d.2.2.1)).sum ∧
      (∃ H, Node.height (.hlayout wv hv cs) = some H ∧ 0 ≤ H ∧
        (∀ b ∈ ds.map (fun d => d.2.1 + d.2.2.2), b ≤ H) ∧
        (H = 0 ∨ H ∈ ds.map (fun d => d.2.1 + d.2.2.2)))) ∧
    (∀ wv hv, Node.width (.vlayout wv hv .nil) = some 0 ∧
      Node.height (.vlayout wv hv .nil) = some 0 ∧
      Node.width (.hlayout wv hv .nil) = some 0 ∧
      Node.height (.hlayout wv hv .nil) = some 0) ∧
    (∀ (wv hv bh : Option Int) (cb : Children) (w' ox oy : Int),
      Node.width (.vlayout wv hv (.cons (.object (some w') bh cb) ox oy .nil))
        = some (max 0 (w' + ox))) := by
  refine ⟨?_, ?_, ?_⟩
  · intro wv hv cs ds hds
    refine ⟨⟨(ds.map (fun d => d.1 + d.2.2.1)).foldl max 0, ?_, ?_, ?_, ?_⟩,
      ?_, ?_, ⟨(ds.map (fun d => d.2.1 + d.2.2.2)).foldl max 0, ?_, ?_, ?_, ?_⟩⟩
    · show Children.vwidthAux cs 0 = _
      exact vwidthAux_eq cs ds hds 0
    · exact le_foldl_max _ 0
    · exact fun a ha => mem_le_foldl_max ha 0
    · exact foldl_max_eq_or_mem _ 0
    · show Children.vheightAux cs 0 = _
      rw [vheightAux_eq cs ds hds 0, zero_add]
    · show Children.hwidthAux cs 0 = _
      rw [hwidthAux_eq cs ds hds 0, zero_add]
    · show Children.hheightAux cs 0 = _
      exact hheightAux_eq cs ds hds 0
    · exact le_foldl_max _ 0
    · exact fun b hb => mem_le_foldl_max hb 0
    · exact foldl_max_eq_or_mem _ 0
  · exact fun wv hv => ⟨rfl, rfl, rfl, rfl⟩
  · intro wv hv bh cb w' ox oy
    show Children.vwidthAux _ 0 = _
    simp [Children.vwidthAux, Node.width]

/-- C1 witness: a `VLayout`/`HLayout` over children of dimensions
`(3, 4)` at offset `(1, 2)` and `(5, 6)` at offset `(7, 8)`: the
amended formulas give `VLayout` width `12` and height `20`, `HLayout`
width `16` and height `14`. -/
theorem C1_derived_dims_witness :
    Node.width (.vlayout none none
      (.cons (.object (some 3) (some 4) .nil) 1 2
        (.cons (.object (some 5) (some 6) .nil) 7 8 .nil))) = some 12 ∧
    Node.height (.vlayout none none
      (.cons (.object (some 3) (some 4) .nil) 1 2
        (.cons (.object (some 5) (some 6) .nil) 7 8 .nil))) = some 20 ∧
    Node.width (.hlayout none none
      (.cons (.object (some 3) (some 4) .nil) 1 2
        (.cons (.object (some 5) (some 6) .nil) 7 8 .nil))) = some 16 ∧
    Node.height (.hlayout none none
      (.cons (.object (some 3) (some 4) .nil) 1 2
        (.cons (.object (some 5) (some 6) .nil) 7 8 .nil))) = some 14 ∧
    Node.width (.vlayout none none
      (.cons (.object (some 9) none .nil) 1 0 .nil)) = some 10 := by
  have h1 := (C1_derived_dims.1 none none
    (.cons (.object (some 3) (some 4) .nil) 1 2
      (.cons (.object (some 5) (some 6) .nil) 7 8 .nil))
    [(3, 4, 1, 2), (5, 6, 7, 8)] rfl)
  obtain ⟨⟨W, hW, _, hWub, hWmem⟩, hvh, hhw, ⟨H, hH, _, hHub, hHmem⟩⟩ := h1
  have hlive := C1_derived_dims.2.2 none none none .nil 9 1 0
  have hWeq : W = 12 := by
    rcases hWmem with h0 | hm
    · exfalso
      have := hWub 12 (by decide)
      omega
    · have h4 := hWub 4 (by decide)
      have h12 := hWub 12 (by decide)
      simp only [List.map_cons, List.map_nil] at hm
      rcases List.mem_cons.mp hm with rfl | hm2
      · omega
      · simp at hm2
        omega
  have hHeq : H = 14 := by
    rcases hHmem with h0 | hm
    · exfalso
      have := hHub 14 (by decide)
      omega
    · have h6 := hHub 6 (by decide)
      have h14 := hHub 14 (by decide)
      simp only [List.map_cons, List.map_nil] at hm
      rcases List.mem_cons.mp hm with rfl | hm2
      · omega
      · simp at hm2
        omega
  refine ⟨hWeq ▸ hW, by simpa using hvh, by simpa using hhw, hHeq ▸ hH, by simpa using hlive⟩

lemma prepareC_mkCells (r : String → Int × Int) (l : List (Int × Int)) :
    Children.prepareC r (mkCells l) = some (mkCells l, 0) := by
  induction l with
  | nil => rfl
  | cons p rest ih =>
    obtain ⟨w, h⟩ := p
    simp [mkCells, Children.prepareC, Node.prepareC, ih]

lemma maxHeight_mkCells (l : List (Int × Int)) (acc : Int) :
    Children.maxHeight (mkCells l) acc = some ((l.map Prod.snd).foldl max acc) := by
  induction l generalizing acc with
  | nil => rfl
  | cons p rest ih =>
    obtain ⟨w, h⟩ := p
    simp only [mkCells, Children.maxHeight, Node.height, List.map_cons, List.foldl_cons,
      Option.some_bind]
    exact ih (max acc h)

lemma setAllHeights_mkCells (v : Int) (l : List (Int × Int)) :
    Children.setAllHeights v (mkCells l) = mkCells (l.map fun p => (p.1, v)) := by
  induction l with
  | nil => rfl
  | cons p rest ih =>
    obtain ⟨w, h⟩ := p
    simp [mkCells, Children.setAllHeights, Node.setH, ih]

lemma mkCells_heights (l : List (Int × Int)) (v : Int) :
    ((mkCells (l.map fun p => (p.1, v))).toList.map fun t => Node.height t.1)
      = l.map fun _ => some v := by
  induction l with
  | nil => rfl
  | cons p rest ih =>
    obtain ⟨w, h⟩ := p
    simp [mkCells, Children.toList, Node.height, ih]

/-- C5: `Table.prepare` first prepares all cells (a no-op for plain
fixed-size cells), then computes the running max of the cells' reported
heights and force-sets every cell's stored height to it; for a nonempty
row of cells with nonnegative explicit heights that running max (which
starts at `0`) is exactly the maximum cell height, so afterwards every
cell reports that maximum.  (Negative explicit dimensions are undefined
behaviour per the spec's error-handling section and are excluded.) -/
theorem C5_table_prepare (r : String → Int × Int) (tw th : Option Int)
    (l : List (Int × Int)) (hne : l ≠ []) (hnn : ∀ p ∈ l, 0 ≤ p.2) :
    ∃ M, Node.prepareC r (.table tw th (mkCells l))
        = some (.table tw (some M) (mkCells (l.map fun p => (p.1, M))), 0) ∧
      M ∈ l.map Prod.snd ∧ (∀ h ∈ l.map Prod.snd, h ≤ M) ∧
      ((mkCells (l.map fun p => (p.1, M))).toList.map fun t => Node.height t.1)
        = l.map fun _ => some M := by
  refine ⟨(l.map Prod.snd).foldl max 0, ?_, ?_, ?_, mkCells_heights l _⟩
  · simp [Node.prepareC, prepareC_mkCells r l, maxHeight_mkCells l 0,
      setAllHeights_mkCells]
  · rcases foldl_max_eq_or_mem (l.map Prod.snd) 0 with h0 | hm
    · rcases l with _ | ⟨p, rest⟩
      · exact absurd rfl hne
      · have hle : p.2 ≤ (((p :: rest).map Prod.snd).foldl max 0) :=
          mem_le_foldl_max (by simp) 0
        have hge : 0 ≤ p.2 := hnn p (by simp)
        rw [h0] at hle ⊢
        have : p.2 = 0 := le_antisymm hle hge
        simp [← this]
    · exact hm
  · exact fun h hh => mem_le_foldl_max hh 0

/-- C5 witness: the spec's example — cells with explicit heights
`[10, 25, 15]` — all report height `25` after `Table.prepare`. -/
theorem C5_table_prepare_witness :
    ∃ M, Node.prepareC (fun _ => (0, 0)) (.table none none (mkCells [(1, 10), (2, 25), (3, 15)]))
        = some (.table none (some M) (mkCells [(1, M), (2, M), (3, M)]), 0) ∧
      M = 25 := by
  obtain ⟨M, hprep, hmem, hub, _⟩ := C5_table_prepare (fun _ => (0, 0)) none none
    [(1, 10), (2, 25), (3, 15)] (by decide) (by decide)
  have hM : M = 25 := by
    have h25 := hub 25 (by decide)
    simp only [List.map_cons, List.map_nil] at hmem
    rcases List.mem_cons.mp hmem with rfl | hm
    · omega
    · rcases List.mem_cons.mp hm with rfl | hm2
      · rfl
      · simp at hm2
        omega
  subst hM
  exact ⟨25, by simpa using hprep, rfl⟩

lemma vplaces_eq : ∀ (cs : Children) (ds : List (Int × Int × Int × Int)),
    cs.dims = some ds → ∀ (x W y : Int),
    Children.vplaces cs x (x + Int.fdiv W 2) y = some (vSpecPlaces x W ds y)
  | .nil, ds, h, x, W, y => by
    simp only [Children.dims] at h; cases h; rfl
  | .cons c ox oy rest, ds, h, x, W, y => by
    obtain ⟨w, h', ds', hw, hh, hds, rfl⟩ := dims_cons_eq h
    have hrec := vplaces_eq rest ds' hds x W (y + h' + oy)
    simp only [Children.vplaces, hw, hh, hrec, Option.bind_eq_bind, Option.some_bind,
      Option.pure_def, vSpecPlaces, Option.some.injEq, List.cons.injEq, Prod.mk.injEq]
    refine ⟨⟨?_, trivial⟩, trivial⟩
    omega

lemma hplaces_eq : ∀ (cs : Children) (ds : List (Int × Int × Int × Int)),
    cs.dims = some ds → ∀ (x y : Int),
    Children.hplaces cs x y = some (hSpecPlaces y ds x)
  | .nil, ds, h, x, y => by
    simp only [Children.dims] at h; cases h; rfl
  | .cons c ox oy rest, ds, h, x, y => by
    obtain ⟨w, h', ds', hw, hh, hds, rfl⟩ := dims_cons_eq h
    have hrec := hplaces_eq rest ds' hds (x + w + ox) y
    simp only [Children.hplaces, hw, hrec, Option.bind_eq_bind, Option.some_bind,
      Option.pure_def, hSpecPlaces]

lemma vSpecPlaces_center (ds : List (Int × Int × Int × Int)) (x W : Int) :
    ∀ (cur : Int) (p : Int × Int) (d : Int × Int × Int × Int),
    (p, d) ∈ (vSpecPlaces x W ds cur).zip ds →
    p.1 + Int.fdiv d.1 2 = x + Int.fdiv W 2 := by
  induction ds with
  | nil => intro cur p d h; simp [vSpecPlaces] at h
  | cons e ds ih =>
    intro cur p d h
    obtain ⟨w, h', ox, oy⟩ := e
    rw [vSpecPlaces, List.zip_cons_cons] at h
    rcases List.mem_cons.mp h with heq | hmem
    · cases heq
      dsimp only
      omega
    · exact ih _ p d hmem

/-- C2: `VLayout.render` at `(x, y)` walks children in order with a
running y-cursor starting at `y` that advances by `child.height +
offset.y` after each child, drawing each child at the cursor offset by
`offset.y` and at the x-position whose center `x-position +
child.width // 2` (Python floor division) equals the layout's center
`x + layout.width // 2` (the derived width); `HLayout.render` instead
places children sequentially at `(cursor + offset.x, y + offset.y)`
with the x-cursor advancing by `child.width + offset.x` and no
centering on its cross axis.  Stated as: the code's placement lists
equal the spec-side `vSpecPlaces`/`hSpecPlaces`, and every `vSpecPlaces`
entry satisfies the center equation. -/
theorem C2_render_positions (cs : Children) (ds : List (Int × Int × Int × Int))
    (x y W : Int) (hds : cs.dims = some ds)
    (hW : Children.vwidthAux cs 0 = some W) :
    vrenderPlaces cs x y = some (vSpecPlaces x W ds y) ∧
    Children.hplaces cs x y = some (hSpecPlaces y ds x) ∧
    (∀ p d, (p, d) ∈ (vSpecPlaces x W ds y).zip ds →
      p.1 + Int.fdiv d.1 2 = x + Int.fdiv W 2) := by
  refine ⟨?_, hplaces_eq cs ds hds x y, fun p d => vSpecPlaces_center ds x W y p d⟩
  simp only [vrenderPlaces, hW, Option.some_bind]
  exact vplaces_eq cs ds hds x W y

/-- C2 witness: children of dimensions `(3, 4)` at offset `(1, 2)` and
`(5, 6)` at offset `(7, 8)` under a parent at `(100, 200)`: derived
width 12, so `VLayout` renders them at `(105, 202)` and `(104, 214)`
(centers all at `106`), and `HLayout` at `(101, 202)` and `(111, 208)`. -/
theorem C2_render_positions_witness :
    vrenderPlaces (.cons (.object (some 3) (some 4) .nil) 1 2
      (.cons (.object (some 5) (some 6) .nil) 7 8 .nil)) 100 200
      = some [(105, 202), (104, 214)] ∧
    Children.hplaces (.cons (.object (some 3) (some 4) .nil) 1 2
      (.cons (.object (some 5) (some 6) .nil) 7 8 .nil)) 100 200
      = some [(101, 202), (111, 208)] := by
  have h := C2_render_positions
    (.cons (.object (some 3) (some 4) .nil) 1 2
      (.cons (.object (some 5) (some 6) .nil) 7 8 .nil))
    [(3, 4, 1, 2), (5, 6, 7, 8)] 100 200 12 rfl rfl
  exact ⟨h.1.trans (by decide), h.2.1.trans (by decide)⟩

lemma basePlaces_toList : ∀ (cs : Children) (x y : Int),
    Children.basePlaces cs x y = cs.toList.map (fun t => (x + t.2.1, y + t.2.2))
  | .nil, x, y => rfl
  | .cons c ox oy rest, x, y => by
    simp only [Children.basePlaces, Children.toList, List.map_cons]
    exact congrArg _ (basePlaces_toList rest x y)

/-- C3 counterexample: in `VLayout.render` the child's x-offset cancels
out of `obj_posx + centerx - obj_centerx`, so the child is NOT
translated by its offset on the x axis.  A `VLayout` with one child of
width 10 at offset `(5, 0)` rendered at the origin draws the child at
x `2`, while the zero-offset position is `0` — a translation by `5`
would give `5`, not `2`. -/
theorem C3_vlayout_x_offset_cex :
    vrenderPlaces (.cons (.object (some 10) (some 10) .nil) 5 0 .nil) 0 0
      = some [(2, 0)] ∧
    vrenderPlaces (.cons (.object (some 10) (some 10) .nil) 0 0 .nil) 0 0
      = some [(0, 0)] ∧
    (2 : Int) ≠ 0 + 5 := ⟨rfl, rfl, by decide⟩

/-- C3 amended: a child's offset is added to its position on both axes
by the base `Object.render` and by `HLayout.render` (each child at
`(cursor + offset.x, y + offset.y)`); `VLayout.render` adds the offset
on the y axis only — on its cross (x) axis the centering computation
cancels the child's own x-offset, which affects the drawn position only
through the layout's derived width, so the child's x-position is
independent of its x-offset once the center is fixed. -/
theorem C3_offset_translation :
    (∀ cs x y, Children.basePlaces cs x y
      = cs.toList.map (fun t => (x + t.2.1, y + t.2.2))) ∧
    (∀ c ox oy rest x y l, Children.hplaces (.cons c ox oy rest) x y = some l →
      l.head? = some (x + ox, y + oy)) ∧
    (∀ c ox oy rest x cx y l, Children.vplaces (.cons c ox oy rest) x cx y = some l →
      ∃ w, Node.width c = some w ∧ l.head? = some (cx - Int.fdiv w 2, y + oy)) ∧
    (∀ c ox ox' oy rest x cx y l l',
      Children.vplaces (.cons c ox oy rest) x cx y = some l →
      Children.vplaces (.cons c ox' oy rest) x cx y = some l' →
      l.head? = l'.head?) := by
  have hv : ∀ (c : Node) (ox oy : Int) (rest : Children) (x cx y : Int)
      (l : List (Int × Int)), Children.vplaces (.cons c ox oy rest) x cx y = some l →
      ∃ w, Node.width c = some w ∧ l.head? = some (cx - Int.fdiv w 2, y + oy) := by
    intro c ox oy rest x cx y l h
    cases hw : Node.width c with
    | none => simp [Children.vplaces, hw] at h
    | some w =>
      cases hh : Node.height c with
      | none => simp [Children.vplaces, hw, hh] at h
      | some hv' =>
        cases hr : Children.vplaces rest x cx (y + hv' + oy) with
        | none => simp [Children.vplaces, hw, hh, hr] at h
        | some ps =>
          have he : (cx - Int.fdiv w 2, y + oy) :: ps = l := by
            simpa [Children.vplaces, hw, hh, hr] using h
          exact ⟨w, rfl, by rw [← he]; rfl⟩
  refine ⟨basePlaces_toList, ?_, hv, ?_⟩
  · intro c ox oy rest x y l h
    cases hw : Node.width c with
    | none => simp [Children.hplaces, hw] at h
    | some w =>
      cases hr : Children.hplaces rest (x + w + ox) y with
      | none => simp [Children.hplaces, hw, hr] at h
      | some ps =>
        have he : (x + ox, y + oy) :: ps = l := by
          simpa [Children.hplaces, hw, hr] using h
        rw [← he]; rfl
  · intro c ox ox' oy rest x cx y l l' h h'
    obtain ⟨w, hw, hhead⟩ := hv c ox oy rest x cx y l h
    obtain ⟨w', hw', hhead'⟩ := hv c ox' oy rest x cx y l' h'
    rw [hw] at hw'
    cases hw'
    rw [hhead, hhead']

/-- C3 witness: concrete instances of each amended conjunct — a base
`Object` child at offset `(1, 2)` under position `(10, 20)` is drawn at
`(11, 22)`; the first `HLayout` child at offset `(1, 2)` under
`(100, 200)` is drawn at `(101, 202)`; a `VLayout` child of width 10 at
x-offset 5 with center parameter 7 is drawn at `(2, 0)`, independent of
its x-offset. -/
theorem C3_offset_translation_witness :
    Children.basePlaces (.cons (.object (some 3) (some 4) .nil) 1 2 .nil) 10 20
      = [(11, 22)] ∧
    ([((101 : Int), (202 : Int)), (111, 208)]).head? = some (101, 202) ∧
    (∃ w, Node.width (Node.object (some 10) (some 10) .nil) = some w ∧
      ([((2 : Int), (0 : Int))]).head? = some (7 - Int.fdiv w 2, 0 + 0)) := by
  refine ⟨?_, ?_, ?_⟩
  · have h := C3_offset_translation.1
      (.cons (.object (some 3) (some 4) .nil) 1 2 .nil) 10 20
    simpa using h
  · have h := C3_offset_translation.2.1 (.object (some 3) (some 4) .nil) 1 2
      (.cons (.object (some 5) (some 6) .nil) 7 8 .nil) 100 200
      [(101, 202), (111, 208)] rfl
    simpa using h
  · exact C3_offset_translation.2.2.1 (.object (some 10) (some 10) .nil) 5 0
      .nil 0 7 0 [(2, 0)] rfl

/-- C7 counterexample: `Text.prepare` tests `if not self._w or not
self._h` with Python truthiness, under which an explicit `0` is falsy.
A `Text` constructed with explicit `width=0, height=5` measures anyway
(`text_bbox` is called once, not zero times) and its explicitly set
width `0` is overwritten by the measured `right=7`. -/
theorem C7_explicit_zero_cex :
    Node.prepareC (fun _ => (7, 9)) (.text "a" (some 0) (some 5) .nil)
      = some (.text "a" (some 7) (some 5) .nil, 1) ∧
    (1 : Nat) ≠ 0 ∧ some (7 : Int) ≠ some (0 : Int) := by
  exact ⟨rfl, by decide, by decide⟩

/-- C7 amended: `Text.prepare` is idempotent on the reported
width/height — preparing an already-prepared text node with the same
(deterministic) renderer leaves both dimensions unchanged; if both
width and height were explicitly set to NONZERO values at construction,
prepare makes no `text_bbox` call at all (for a childless text node);
and when it does measure, only the dimensions that are unset (or zero,
which Python truthiness conflates with unset) are overwritten — a
nonzero constructed dimension keeps its value. -/
theorem C7_text_prepare_idempotent :
    (∀ (r : String → Int × Int) (s : String) (w h : Option Int) (cs : Children)
      (t₁ : Node) (n₁ : Nat) (t₂ : Node) (n₂ : Nat),
      Node.prepareC r (.text s w h cs) = some (t₁, n₁) →
      Node.prepareC r t₁ = some (t₂, n₂) →
      Node.width t₂ = Node.width t₁ ∧ Node.height t₂ = Node.height t₁) ∧
    (∀ (r : String → Int × Int) (s : String) (w h : Int), w ≠ 0 → h ≠ 0 →
      Node.prepareC r (.text s (some w) (some h) .nil)
        = some (.text s (some w) (some h) .nil, 0)) ∧
    (∀ (r : String → Int × Int) (s : String) (w : Int), w ≠ 0 →
      Node.prepareC r (.text s (some w) none .nil)
        = some (.text s (some w) (some (r s).2) .nil, 1)) ∧
    (∀ (r : String → Int × Int) (s : String) (h : Int), h ≠ 0 →
      Node.prepareC r (.text s none (some h) .nil)
        = some (.text s (some (r s).1) (some h) .nil, 1)) := by
  refine ⟨?_, ?_, ?_, ?_⟩
  · intro r s w h cs t₁ n₁ t₂ n₂ h1 h2
    rcases hrs : r s with ⟨right, bottom⟩
    cases hcs : Children.prepareC r cs with
    | none => simp [Node.prepareC, hcs] at h1
    | some p =>
      obtain ⟨cs', n⟩ := p
      cases hcond : (pytruthy w && pytruthy h) with
      | true =>
        have h1' : Node.text s w h cs' = t₁ ∧ n = n₁ := by
          simpa [Node.prepareC, hcs, hcond] using h1
        obtain ⟨ht1, -⟩ := h1'
        subst ht1
        cases hcs' : Children.prepareC r cs' with
        | none => simp [Node.prepareC, hcs'] at h2
        | some q =>
          obtain ⟨cs'', m⟩ := q
          have h2' : Node.text s w h cs'' = t₂ ∧ m = n₂ := by
            simpa [Node.prepareC, hcs', hcond] using h2
          obtain ⟨ht2, -⟩ := h2'
          subst ht2
          exact ⟨rfl, rfl⟩
      | false =>
        have h1' : Node.text s (some (pyOr w right)) (some (pyOr h bottom)) cs' = t₁
            ∧ n + 1 = n₁ := by
          simpa [Node.prepareC, hcs, hcond, hrs] using h1
        obtain ⟨ht1, -⟩ := h1'
        subst ht1
        cases hcs' : Children.prepareC r cs' with
        | none => simp [Node.prepareC, hcs'] at h2
        | some q =>
          obtain ⟨cs'', m⟩ := q
          cases hcond2 : (pytruthy (some (pyOr w right)) && pytruthy (some (pyOr h bottom))) with
          | true =>
            have h2' : Node.text s (some (pyOr w right)) (some (pyOr h bottom)) cs'' = t₂
                ∧ m = n₂ := by
              simpa [Node.prepareC, hcs', hcond2] using h2
            obtain ⟨ht2, -⟩ := h2'
            subst ht2
            exact ⟨rfl, rfl⟩
          | false =>
            have h2' : Node.text s (some (pyOr (some (pyOr w right)) right))
                (some (pyOr (some (pyOr h bottom)) bottom)) cs'' = t₂ ∧ m + 1 = n₂ := by
              simpa [Node.prepareC, hcs', hcond2, hrs] using h2
            obtain ⟨ht2, -⟩ := h2'
            subst ht2
            simp [Node.width, Node.height, pyOr_idem]
  · intro r s w h hw hh
    simp [Node.prepareC, Children.prepareC, pytruthy, hw, hh]
  · intro r s w hw
    rcases hrs : r s with ⟨right, bottom⟩
    simp [Node.prepareC, Children.prepareC, pytruthy, pyOr, hw, hrs]
  · intro r s h hh
    rcases hrs : r s with ⟨right, bottom⟩
    simp [Node.prepareC, Children.prepareC, pytruthy, pyOr, hh, hrs]

/-- C7 witness: with renderer measurement `(7, 9)` — a text with
explicit nonzero dims `(3, 4)` is untouched with no measurement; an
unset height is measured to `9` while the explicit width `3` is kept;
and preparing a fully unset text twice yields the same dimensions as
preparing it once. -/
theorem C7_text_prepare_idempotent_witness :
    Node.prepareC (fun _ => ((7 : Int), (9 : Int))) (.text "a" (some 3) (some 4) .nil)
      = some (.text "a" (some 3) (some 4) .nil, 0) ∧
    Node.prepareC (fun _ => ((7 : Int), (9 : Int))) (.text "a" (some 3) none .nil)
      = some (.text "a" (some 3) (some 9) .nil, 1) ∧
    Node.prepareC (fun _ => ((7 : Int), (9 : Int))) (.text "a" none (some 4) .nil)
      = some (.text "a" (some 7) (some 4) .nil, 1) ∧
    (Node.width (.text "a" (some 7) (some 9) .nil) = Node.width (.text "a" (some 7) (some 9) .nil) ∧
     Node.height (.text "a" (some 7) (some 9) .nil) = Node.height (.text "a" (some 7) (some 9) .nil)) := by
  refine ⟨?_, ?_, ?_, ?_⟩
  · exact C7_text_prepare_idempotent.2.1 (fun _ => (7, 9)) "a" 3 4 (by decide) (by decide)
  · exact C7_text_prepare_idempotent.2.2.1 (fun _ => (7, 9)) "a" 3 (by decide)
  · exact C7_text_prepare_idempotent.2.2.2 (fun _ => (7, 9)) "a" 4 (by decide)
  · exact C7_text_prepare_idempotent.1 (fun _ => (7, 9)) "a" none none .nil
      (.text "a" (some 7) (some 9) .nil) 1 (.text "a" (some 7) (some 9) .nil) 0 rfl rfl

/-- C6: a `Canvas` with `style.padding = 10` holding one child whose
prepared width is 50 and height 30 at offset `(0, 0)`, rendered at the
origin: the canvas accumulates width `max(10, 50 + 10) + 10 = 70` and
height `max(10, 30 + 10) + 10 = 50`, and the renderer trace is the
child's own draw calls followed by exactly one `set_dimensions` call,
last, with argument `(70, 50)`.  (No modelled node variant can emit
`set_dimensions`, so the count is exactly one.) -/
theorem C6_canvas_single_child (r : String → Int × Int) (c c' : Node) (n : Nat)
    (cevs : List Ev) (hp : Node.prepareC r c = some (c', n))
    (hw : Node.width c' = some 50) (hh : Node.height c' = some 30)
    (hr : Node.renderEv c' 10 10 = some cevs) :
    canvasRender r 10 (.cons c 0 0 .nil) 0 0
      = some (70, 50, cevs ++ [Ev.setDims 70 50]) ∧
    (cevs ++ [Ev.setDims 70 50]).countP Ev.isSetDims = 1 ∧
    (cevs ++ [Ev.setDims 70 50]).getLast? = some (Ev.setDims 70 50) := by
  refine ⟨?_, ?_, ?_⟩
  · have h1 : (0 : Int) + 10 = 10 := by decide
    simp only [canvasRender, canvasLoop, h1, hp, zero_add, add_zero, hr, hw, hh,
      Option.bind_eq_bind, Option.some_bind, Option.pure_def]
    norm_num
  · rw [List.countP_append, Node.renderEv_noSetDims c' 10 10 cevs hr]
    rfl
  · exact List.getLast?_concat _

/-- C6 witness: the child is a `Rectangle` of explicit size 50×30; the
full trace is its rectangle call at `(10, 10)`–`(60, 40)` then
`set_dimensions (70, 50)`. -/
theorem C6_canvas_single_child_witness :
    canvasRender (fun _ => (0, 0)) 10
      (.cons (.rect (some 50) (some 30) .nil) 0 0 .nil) 0 0
      = some (70, 50, [Ev.rectangle 10 10 60 40, Ev.setDims 70 50]) ∧
    ([Ev.rectangle 10 10 60 40, Ev.setDims 70 50]).countP Ev.isSetDims = 1 := by
  have h := C6_canvas_single_child (fun _ => (0, 0)) (.rect (some 50) (some 30) .nil)
    (.rect (some 50) (some 30) .nil) 0 [Ev.rectangle 10 10 60 40] rfl rfl rfl rfl
  exact ⟨h.1.trans (by decide), h.2.1.trans rfl⟩

end Layout
